import Mathlib

/-!
Shallow embedding of `src/medical_diag.py` (rule-based medical diagnosis).

Python strings are modelled as lists of Unicode code points (`List Nat`);
the string operations the program uses (`str.strip`, `str.lower`,
`str.replace(" ", "_")`, lexicographic comparison of tuples in `sorted`)
are modelled character-wise over code points, with ASCII semantics for
case folding and whitespace (all data in the program is ASCII).
-/

/-- A Python string, as its list of code points. -/
abbrev Str := List Nat

/-- Code points of a Lean string literal (used to write the table literals). -/
def codes (s : String) : Str := s.data.map Char.toNat

/-- Python `str.strip` whitespace test, for the ASCII whitespace characters
(space, tab, newline, carriage return, vertical tab, form feed). -/
def pyIsSpace (n : Nat) : Bool := n = 32 || n = 9 || n = 10 || n = 13 || n = 11 || n = 12

/-- Python `s.strip()`: drop leading and trailing whitespace. -/
def pyStrip (l : Str) : Str := ((l.dropWhile pyIsSpace).reverse.dropWhile pyIsSpace).reverse

/-- ASCII lowercasing of one code point (Python `str.lower` on ASCII data). -/
def pyLowerChar (n : Nat) : Nat := if 65 ≤ n ∧ n ≤ 90 then n + 32 else n

/-- Python `s.lower()` (ASCII). -/
def pyLower (l : Str) : Str := l.map pyLowerChar

/-- One step of Python `s.replace(" ", "_")`: space (32) becomes underscore (95). -/
def spaceToUnderscore (n : Nat) : Nat := if n = 32 then 95 else n

/-- Python `s.replace(" ", "_")`: every space character becomes one underscore. -/
def pyReplaceSpace (l : Str) : Str := l.map spaceToUnderscore

/-- The normalization applied to each symptom in `diagnose`
(line 81: `s.strip().lower().replace(" ", "_")`). -/
def normalizeToken (l : Str) : Str := pyReplaceSpace (pyLower (pyStrip l))

/-- The set comprehension of line 81:
`{s.strip().lower().replace(" ", "_") for s in symptoms if s.strip()}`. -/
def tokensOf (symptoms : List Str) : Finset Str :=
  ((symptoms.filter (fun s => !(pyStrip s).isEmpty)).map normalizeToken).toFinset

/-- `DISEASE_RULES`: the knowledge base, in Python dict insertion
(= declaration) order; each symptom set as the list of its literal members. -/
def DISEASE_RULES : List (Str × List Str) :=
  [ (codes "flu", [codes "fever", codes "cough", codes "body_ache", codes "fatigue"]),
    (codes "common cold", [codes "cough", codes "sore_throat", codes "runny_nose"]),
    (codes "asthma", [codes "shortness_breath", codes "wheezing", codes "cough"]),
    (codes "covid-19", [codes "fever", codes "loss_smell", codes "cough", codes "sore_throat"]),
    (codes "pneumonia", [codes "fever", codes "cough", codes "shortness_breath", codes "chest_pain"]),
    (codes "migraine", [codes "headache", codes "blurred_vision", codes "nausea"]),
    (codes "diabetes", [codes "fatigue", codes "thirst", codes "frequent_urination", codes "blurred_vision"]),
    (codes "hypertension", [codes "headache", codes "dizziness", codes "blurred_vision"]),
    (codes "arthritis", [codes "joint_pain", codes "stiffness", codes "swelling"]),
    (codes "appendicitis", [codes "abdominal_pain", codes "vomiting", codes "loss_appetite", codes "fever"]),
    (codes "tuberculosis", [codes "chronic_cough", codes "weight_loss", codes "night_sweats", codes "chest_pain"]),
    (codes "depression", [codes "fatigue", codes "loss_interest", codes "sadness", codes "sleep_disturbance"]),
    (codes "conjunctivitis", [codes "red_eyes", codes "itchy_eyes", codes "eye_discharge"]),
    (codes "food_poisoning", [codes "vomiting", codes "diarrhea", codes "nausea", codes "abdominal_pain"]) ]

/-- `DISEASE_TO_SPECIALIST` (Python dict), as an association list. -/
def DISEASE_TO_SPECIALIST : List (Str × String) :=
  [ (codes "flu", "General Physician"),
    (codes "common cold", "General Physician"),
    (codes "diabetes", "Endocrinologist"),
    (codes "hypertension", "Cardiologist"),
    (codes "asthma", "Pulmonologist"),
    (codes "pneumonia", "Pulmonologist"),
    (codes "migraine", "Neurologist"),
    (codes "arthritis", "Rheumatologist"),
    (codes "covid-19", "Infectious Disease Specialist"),
    (codes "appendicitis", "General Surgeon"),
    (codes "tuberculosis", "Pulmonologist"),
    (codes "depression", "Psychiatrist"),
    (codes "conjunctivitis", "Ophthalmologist"),
    (codes "food_poisoning", "Gastroenterologist") ]

/-- `DISEASE_TO_SPECIALIST.get(disease, "Consult specialist")`. -/
def specialistFor (disease : Str) : String :=
  match DISEASE_TO_SPECIALIST.find? (fun e => e.1 == disease) with
  | some e => e.2
  | none => "Consult specialist"

/-- `len(sset & rules)`: size of the intersection of the input token set
with a disease's symptom set. -/
def matchCount (ts : Finset Str) (rules : List Str) : Nat := (ts ∩ rules.toFinset).card

/-- Line 86: `[(len(sset & rules), dis) for dis, rules in DISEASE_RULES.items()
if len(sset & rules) > 0]`, in dict order. -/
def scoresOf (ts : Finset Str) : List (Nat × Str) :=
  (DISEASE_RULES.filter (fun e => 0 < matchCount ts e.2)).map (fun e => (matchCount ts e.2, e.1))

/-- Python `<` on strings: lexicographic comparison of code points. -/
def pyStrLtB : Str → Str → Bool
  | [], [] => false
  | [], _ :: _ => true
  | _ :: _, [] => false
  | a :: as, b :: bs => if a < b then true else if b < a then false else pyStrLtB as bs

/-- Python `<` on `(int, str)` tuples: lexicographic. -/
def pyTupLtB (x y : Nat × Str) : Bool :=
  x.1 < y.1 || (x.1 = y.1 && pyStrLtB x.2 y.2)

/-- The order produced by `sorted(scores, reverse=True)`: `a` may precede `b`
iff `a` is not tuple-smaller than `b`. -/
def tupGe (a b : Nat × Str) : Prop := ¬ (pyTupLtB a b = true)

instance : DecidableRel tupGe := fun _ _ => instDecidableNot

/-- Line 91: `sorted(scores, reverse=True)[:3]` (stable descending sort on
`(matchCount, name)` tuples, then the first three). -/
def topOf (ts : Finset Str) : List (Nat × Str) :=
  (List.insertionSort tupGe (scoresOf ts)).take 3

/-- The observable outcome of `diagnose`: one of the two "no results"
messages, or the printed result list. -/
inductive DiagOutcome where
  | noSymptoms : DiagOutcome
  | noMatch : DiagOutcome
  | results : List (Nat × Str) → DiagOutcome
deriving DecidableEq

/-- The message printed for each "no results" outcome. -/
def outcomeMessage : DiagOutcome → Option String
  | .noSymptoms => some "No symptoms entered."
  | .noMatch => some "No matching disease found."
  | .results _ => none

/-- `diagnose` after the token set has been formed (lines 82-91). -/
def diagnoseTokens (ts : Finset Str) : DiagOutcome :=
  if ts = ∅ then .noSymptoms
  else if scoresOf ts = [] then .noMatch
  else .results (topOf ts)

/-- `diagnose(symptoms)` (lines 80-91). -/
def diagnose (symptoms : List Str) : DiagOutcome := diagnoseTokens (tokensOf symptoms)

/-- `ALL_SYMPTOMS = sorted({s for sset in DISEASE_RULES.values() for s in sset})`
(line 73): the distinct symptoms, sorted ascending. -/
def ALL_SYMPTOMS : List Str :=
  List.insertionSort (fun a b => ¬ (pyStrLtB b a = true))
    ((DISEASE_RULES.map Prod.snd).flatten.dedup)

/-- Declaration index of a disease name in the knowledge base table. -/
def declIndex (name : Str) : Nat := (DISEASE_RULES.map Prod.fst).indexOf name

/-- The symptom set the knowledge base associates to a disease name
(empty for unknown names). -/
def kbSymptoms (name : Str) : Finset Str :=
  match DISEASE_RULES.find? (fun e => e.1 == name) with
  | some e => e.2.toFinset
  | none => ∅

/-! ### Order-theoretic facts about the Python tuple comparison -/

theorem pyStrLtB_irrefl : ∀ l : Str, pyStrLtB l l = false
  | [] => rfl
  | _ :: as => by simp [pyStrLtB, pyStrLtB_irrefl as]

theorem pyStrLtB_trans :
    ∀ a b c : Str, pyStrLtB a b = true → pyStrLtB b c = true → pyStrLtB a c = true
  | [], [], _, hab, _ => absurd hab (by simp [pyStrLtB])
  | [], _ :: _, [], _, hbc => absurd hbc (by simp [pyStrLtB])
  | [], _ :: _, _ :: _, _, _ => rfl
  | _ :: _, [], _, hab, _ => absurd hab (by simp [pyStrLtB])
  | _ :: _, _ :: _, [], _, hbc => absurd hbc (by simp [pyStrLtB])
  | a :: as, b :: bs, c :: cs, hab, hbc => by
    simp only [pyStrLtB] at hab hbc ⊢
    rcases Nat.lt_trichotomy a b with h1 | h1 | h1
    · rcases Nat.lt_trichotomy b c with h2 | h2 | h2
      · simp [Nat.lt_trans h1 h2]
      · subst h2; simp [h1]
      · simp [Nat.lt_asymm h2, h2] at hbc
    · subst h1
      simp only [Nat.lt_irrefl, if_false] at hab
      rcases Nat.lt_trichotomy a c with h2 | h2 | h2
      · simp [h2]
      · subst h2
        simp only [Nat.lt_irrefl, if_false] at hbc ⊢
        exact pyStrLtB_trans as bs cs hab hbc
      · simp [Nat.lt_asymm h2, h2] at hbc
    · simp [Nat.lt_asymm h1, h1] at hab

theorem pyStrLtB_connex :
    ∀ a b : Str, pyStrLtB a b = false → pyStrLtB b a = false → a = b
  | [], [], _, _ => rfl
  | [], _ :: _, hab, _ => by simp [pyStrLtB] at hab
  | _ :: _, [], _, hba => by simp [pyStrLtB] at hba
  | a :: as, b :: bs, hab, hba => by
    simp only [pyStrLtB] at hab hba
    rcases Nat.lt_trichotomy a b with h1 | h1 | h1
    · simp [h1] at hab
    · subst h1
      simp only [Nat.lt_irrefl, if_false] at hab hba
      rw [pyStrLtB_connex as bs hab hba]
    · simp [h1] at hba

theorem pyStrLtB_asymm (a b : Str) (h : pyStrLtB a b = true) : pyStrLtB b a = false := by
  by_contra h'
  have h'' : pyStrLtB b a = true := by
    cases hba : pyStrLtB b a with
    | false => exact absurd hba h'
    | true => rfl
  have := pyStrLtB_trans a b a h h''
  simp [pyStrLtB_irrefl] at this

theorem pyTupLtB_irrefl (x : Nat × Str) : pyTupLtB x x = false := by
  simp [pyTupLtB, pyStrLtB_irrefl]

theorem pyTupLtB_trans (x y z : Nat × Str)
    (hxy : pyTupLtB x y = true) (hyz : pyTupLtB y z = true) : pyTupLtB x z = true := by
  simp only [pyTupLtB, Bool.or_eq_true, Bool.and_eq_true, decide_eq_true_eq] at hxy hyz ⊢
  rcases hxy with h1 | ⟨h1, h1'⟩ <;> rcases hyz with h2 | ⟨h2, h2'⟩
  · exact Or.inl (Nat.lt_trans h1 h2)
  · exact Or.inl (h2 ▸ h1)
  · exact Or.inl (h1 ▸ h2)
  · exact Or.inr ⟨h1.trans h2, pyStrLtB_trans _ _ _ h1' h2'⟩

theorem pyTupLtB_connex (x y : Nat × Str)
    (h1 : pyTupLtB x y = false) (h2 : pyTupLtB y x = false) : x = y := by
  simp only [pyTupLtB, Bool.or_eq_false_iff, Bool.and_eq_false_iff,
    decide_eq_false_iff_not] at h1 h2
  obtain ⟨ha1, hb1⟩ := h1
  obtain ⟨ha2, hb2⟩ := h2
  have hfst : x.1 = y.1 := Nat.le_antisymm (Nat.not_lt.mp ha2) (Nat.not_lt.mp ha1)
  rcases hb1 with h | h
  · exact absurd hfst (by simpa using h)
  · rcases hb2 with h' | h'
    · exact absurd hfst.symm (by simpa using h')
    · have e2 : x.2 = y.2 := pyStrLtB_connex _ _ (by simpa using h) (by simpa using h')
      exact Prod.ext hfst e2

theorem pyTupLtB_false_cases (x y : Nat × Str) (h : pyTupLtB x y = false) :
    pyTupLtB y x = true ∨ x = y := by
  cases hyx : pyTupLtB y x with
  | true => exact Or.inl rfl
  | false => exact Or.inr (pyTupLtB_connex x y h hyx)

instance : IsTotal (Nat × Str) tupGe :=
  ⟨fun a b => by
    unfold tupGe
    by_contra h
    push_neg at h
    obtain ⟨h1, h2⟩ := h
    have := pyTupLtB_trans a b a h1 h2
    simp [pyTupLtB_irrefl] at this⟩

instance : IsTrans (Nat × Str) tupGe :=
  ⟨fun a b c hab hbc => by
    unfold tupGe at *
    intro hac
    rcases pyTupLtB_false_cases a b (Bool.eq_false_iff.mpr hab) with h | h
    · exact hbc (pyTupLtB_trans b a c h hac)
    · exact hbc (h ▸ hac)⟩

/-! ### Normalization: character-level and list-level facts -/

/-- The per-character action of the whole normalization (lowercase, then
space to underscore). -/
def normChar (c : Nat) : Nat := spaceToUnderscore (pyLowerChar c)

theorem normalizeToken_eq_map (l : Str) :
    normalizeToken l = (pyStrip l).map normChar := by
  unfold normalizeToken pyReplaceSpace pyLower
  rw [List.map_map]
  rfl

theorem pyIsSpace_normChar (c : Nat) (h : pyIsSpace c = false) :
    pyIsSpace (normChar c) = false := by
  unfold normChar pyLowerChar spaceToUnderscore
  simp only [pyIsSpace] at h ⊢
  split_ifs <;> simp_all

theorem normChar_ne_space (c : Nat) : normChar c ≠ 32 := by
  unfold normChar pyLowerChar spaceToUnderscore
  split_ifs <;> omega

theorem pyLowerChar_normChar (c : Nat) : pyLowerChar (normChar c) = normChar c := by
  unfold normChar pyLowerChar spaceToUnderscore
  split_ifs <;> omega

theorem spaceToUnderscore_normChar (c : Nat) :
    spaceToUnderscore (normChar c) = normChar c := by
  have := normChar_ne_space c
  unfold spaceToUnderscore
  split_ifs with h
  · exact absurd h this
  · rfl

theorem head?_dropWhile_not (p : Nat → Bool) :
    ∀ (l : Str) (c : Nat), (l.dropWhile p).head? = some c → p c = false
  | [], _, h => by simp [List.dropWhile] at h
  | a :: t, c, h => by
    rw [List.dropWhile_cons] at h
    split at h
    · exact head?_dropWhile_not p t c h
    · next ha =>
      simp only [List.head?_cons, Option.some.injEq] at h
      rw [← h]
      exact Bool.eq_false_iff.mpr ha

theorem dropWhile_eq_self_of_head (p : Nat → Bool) (l : Str)
    (h : ∀ c, l.head? = some c → p c = false) : l.dropWhile p = l := by
  cases l with
  | nil => rfl
  | cons a t => rw [List.dropWhile_cons, h a rfl]; simp

theorem pyStrip_head (l : Str) (c : Nat) (h : (pyStrip l).head? = some c) :
    pyIsSpace c = false := by
  unfold pyStrip at h
  have hsuf : ((l.dropWhile pyIsSpace).reverse.dropWhile pyIsSpace) <:+
      (l.dropWhile pyIsSpace).reverse := List.dropWhile_suffix _
  have hpre : ((l.dropWhile pyIsSpace).reverse.dropWhile pyIsSpace).reverse <+:
      l.dropWhile pyIsSpace := by
    have := List.reverse_prefix.mpr hsuf
    rwa [List.reverse_reverse] at this
  obtain ⟨r, hr⟩ := hpre
  cases hu : ((l.dropWhile pyIsSpace).reverse.dropWhile pyIsSpace).reverse with
  | nil => rw [hu] at h; simp at h
  | cons a t =>
    rw [hu] at h hr
    simp only [List.head?_cons, Option.some.injEq] at h
    have hhd : (l.dropWhile pyIsSpace).head? = some a := by
      rw [← hr]; rfl
    rw [h] at hhd
    exact head?_dropWhile_not pyIsSpace l c hhd

theorem pyStrip_last (l : Str) (c : Nat) (h : (pyStrip l).getLast? = some c) :
    pyIsSpace c = false := by
  rw [← List.head?_reverse] at h
  unfold pyStrip at h
  rw [List.reverse_reverse] at h
  exact head?_dropWhile_not pyIsSpace _ c h

theorem pyStrip_eq_self (l : Str)
    (h1 : ∀ c, l.head? = some c → pyIsSpace c = false)
    (h2 : ∀ c, l.getLast? = some c → pyIsSpace c = false) : pyStrip l = l := by
  unfold pyStrip
  rw [dropWhile_eq_self_of_head _ _ h1]
  rw [dropWhile_eq_self_of_head _ _ (fun c hc => h2 c (by rwa [List.head?_reverse] at hc))]
  exact List.reverse_reverse l

theorem pyStrip_normalizeToken (l : Str) :
    pyStrip (normalizeToken l) = normalizeToken l := by
  rw [normalizeToken_eq_map]
  apply pyStrip_eq_self
  · intro c hc
    rw [List.head?_map] at hc
    cases hh : (pyStrip l).head? with
    | none => rw [hh] at hc; simp at hc
    | some d =>
      rw [hh] at hc
      simp only [Option.map_some', Option.some.injEq] at hc
      rw [← hc]
      exact pyIsSpace_normChar d (pyStrip_head l d hh)
  · intro c hc
    rw [List.getLast?_map] at hc
    cases hh : (pyStrip l).getLast? with
    | none => rw [hh] at hc; simp at hc
    | some d =>
      rw [hh] at hc
      simp only [Option.map_some', Option.some.injEq] at hc
      rw [← hc]
      exact pyIsSpace_normChar d (pyStrip_last l d hh)

theorem pyLower_normalizeToken (l : Str) :
    pyLower (normalizeToken l) = normalizeToken l := by
  rw [normalizeToken_eq_map]
  unfold pyLower
  rw [List.map_map]
  exact List.map_congr_left (fun a _ => pyLowerChar_normChar a)

theorem pyReplaceSpace_normalizeToken (l : Str) :
    pyReplaceSpace (normalizeToken l) = normalizeToken l := by
  rw [normalizeToken_eq_map]
  unfold pyReplaceSpace
  rw [List.map_map]
  exact List.map_congr_left (fun a _ => spaceToUnderscore_normChar a)

theorem normalizeToken_idem (l : Str) :
    normalizeToken (normalizeToken l) = normalizeToken l := by
  show pyReplaceSpace (pyLower (pyStrip (normalizeToken l))) = normalizeToken l
  rw [pyStrip_normalizeToken, pyLower_normalizeToken, pyReplaceSpace_normalizeToken]

theorem count_map_normChar : ∀ l : Str,
    ((l.map normChar).count 95) = l.count 95 + l.count 32
  | [] => rfl
  | c :: t => by
    simp only [List.map_cons, List.count_cons, beq_iff_eq]
    rw [count_map_normChar t]
    have h : (if normChar c = 95 then 1 else 0) =
        (if c = 95 then 1 else 0) + (if c = 32 then 1 else 0) := by
      unfold normChar spaceToUnderscore pyLowerChar
      split_ifs <;> omega
    omega

/-! ### Structure of the diagnose pipeline -/

theorem kb_names_nodup : (DISEASE_RULES.map Prod.fst).Nodup := by decide

theorem results_eq (input : List Str) (l : List (Nat × Str))
    (h : diagnose input = .results l) :
    l = topOf (tokensOf input) ∧ scoresOf (tokensOf input) ≠ [] ∧ tokensOf input ≠ ∅ := by
  unfold diagnose diagnoseTokens at h
  split at h
  · exact absurd h (by intro hc; cases hc)
  · next hts =>
    split at h
    · exact absurd h (by intro hc; cases hc)
    · next hsc =>
      injection h with h'
      exact ⟨h'.symm, hsc, hts⟩

theorem scoresOf_map_snd (ts : Finset Str) :
    (scoresOf ts).map Prod.snd =
      (DISEASE_RULES.filter (fun e => 0 < matchCount ts e.2)).map Prod.fst := by
  unfold scoresOf
  rw [List.map_map]
  rfl

theorem nodup_scoresOf (ts : Finset Str) : (scoresOf ts).Nodup := by
  apply List.Nodup.of_map Prod.snd
  rw [scoresOf_map_snd]
  exact kb_names_nodup.sublist ((List.filter_sublist DISEASE_RULES).map Prod.fst)

theorem nodup_topOf (ts : Finset Str) : (topOf ts).Nodup := by
  unfold topOf
  exact (((List.perm_insertionSort tupGe (scoresOf ts)).nodup_iff).mpr
    (nodup_scoresOf ts)).sublist (List.take_sublist 3 _)

theorem mem_scoresOf (ts : Finset Str) (p : Nat × Str) (hp : p ∈ scoresOf ts) :
    ∃ e ∈ DISEASE_RULES, 0 < matchCount ts e.2 ∧ p = (matchCount ts e.2, e.1) := by
  unfold scoresOf at hp
  obtain ⟨e, he, rfl⟩ := List.mem_map.mp hp
  exact ⟨e, List.mem_of_mem_filter he, by
    have := List.of_mem_filter he
    simpa using this, rfl⟩

theorem mem_topOf (ts : Finset Str) (p : Nat × Str) (hp : p ∈ topOf ts) :
    p ∈ scoresOf ts := by
  unfold topOf at hp
  have := List.take_sublist 3 (List.insertionSort tupGe (scoresOf ts))
  exact (List.mem_insertionSort tupGe).mp (this.mem hp)

theorem find_of_mem_nodup_keys :
    ∀ (l : List (Str × List Str)), (l.map Prod.fst).Nodup →
      ∀ e ∈ l, l.find? (fun x => x.1 == e.1) = some e
  | [], _, e, he => absurd he (List.not_mem_nil e)
  | a :: t, hn, e, he => by
    rcases List.mem_cons.mp he with rfl | het
    · rw [List.find?_cons_of_pos _ (by simp)]
    · have hne : a.1 ≠ e.1 := by
        intro hc
        have : e.1 ∈ t.map Prod.fst := List.mem_map_of_mem Prod.fst het
        rw [← hc] at this
        exact (List.nodup_cons.mp (by simpa using hn)).1 this
      rw [List.find?_cons_of_neg _ (by simpa using hne)]
      exact find_of_mem_nodup_keys t (List.nodup_cons.mp (by simpa using hn)).2 e het

theorem kbSymptoms_of_mem (e : Str × List Str) (he : e ∈ DISEASE_RULES) :
    kbSymptoms e.1 = e.2.toFinset := by
  unfold kbSymptoms
  rw [find_of_mem_nodup_keys DISEASE_RULES kb_names_nodup e he]

theorem scoresOf_eq_nil_iff (ts : Finset Str) :
    scoresOf ts = [] ↔ ∀ e ∈ DISEASE_RULES, ts ∩ e.2.toFinset = ∅ := by
  unfold scoresOf
  rw [List.map_eq_nil_iff, List.filter_eq_nil_iff]
  constructor
  · intro h e he
    have := h e he
    simp only [matchCount, decide_eq_true_eq, Nat.not_lt, Nat.le_zero] at this
    exact Finset.card_eq_zero.mp this
  · intro h e he
    simp only [matchCount, decide_eq_true_eq, Nat.not_lt, Nat.le_zero]
    exact Finset.card_eq_zero.mpr (h e he)

theorem topOf_ne_nil (ts : Finset Str) (h : scoresOf ts ≠ []) : topOf ts ≠ [] := by
  unfold topOf
  intro hc
  have hlen := congrArg List.length hc
  rw [List.length_take, (List.perm_insertionSort tupGe (scoresOf ts)).length_eq] at hlen
  simp only [List.length_nil, Nat.min_eq_zero_iff] at hlen
  rcases hlen with h3 | h0
  · omega
  · exact h (List.eq_nil_of_length_eq_zero h0)

/-! ### The claims -/

/-- C2: For the input `["headache", "blurred vision"]`, the claim that
migraine is a candidate with matchCount 1 and that hypertension ranks first
is false: migraine scores 2 (it contains both `headache` and
`blurred_vision`) and ranks first. -/
theorem c2_scenario2_counterexample :
    ¬ ((1, codes "migraine") ∈ scoresOf (tokensOf [codes "headache", codes "blurred vision"]) ∧
       (topOf (tokensOf [codes "headache", codes "blurred vision"])).head? =
         some (2, codes "hypertension")) := by decide

/-- C2 (amended): for the input `["headache", "blurred vision"]` the
candidates are migraine with matchCount 2, hypertension with matchCount 2 and
diabetes with matchCount 1, and migraine ranks first (descending-name
tie-break), hypertension second, diabetes third. -/
theorem c2_scenario2_amended :
    diagnose [codes "headache", codes "blurred vision"] =
      .results [(2, codes "migraine"), (2, codes "hypertension"), (1, codes "diabetes")] := by
  decide

/-- C3: For the input `["fever", "cough"]`, the claim that the first result
is flu is false: the reverse tuple sort puts pneumonia first. -/
theorem c3_scenario1_counterexample :
    ¬ ((topOf (tokensOf [codes "fever", codes "cough"])).head? = some (2, codes "flu")) := by
  decide

/-- C3 (amended): for the input `["fever", "cough"]` the results are
pneumonia, flu and covid-19, each with matchCount 2, in descending
lexical name order (pneumonia first, flu second, covid-19 third). -/
theorem c3_scenario1_amended :
    diagnose [codes "fever", codes "cough"] =
      .results [(2, codes "pneumonia"), (2, codes "flu"), (2, codes "covid-19")] := by
  decide

/-- C7: `diagnose` is total (it is a Lean function on all input lists) and
produces zero results exactly when the token set is empty (the
`EmptySymptomSet` signal, displayed as "No symptoms entered.") or every
disease scores zero (the `NoMatch` signal, displayed as
"No matching disease found."); a `results` outcome is never the empty
list, and there is no other outcome. -/
theorem c7_totality_and_signals (input : List Str) :
    (diagnose input = .noSymptoms ↔ tokensOf input = ∅) ∧
    (diagnose input = .noMatch ↔
      (tokensOf input ≠ ∅ ∧ ∀ e ∈ DISEASE_RULES, tokensOf input ∩ e.2.toFinset = ∅)) ∧
    diagnose input ≠ .results [] ∧
    outcomeMessage .noSymptoms = some "No symptoms entered." ∧
    outcomeMessage .noMatch = some "No matching disease found." := by
  by_cases h1 : tokensOf input = ∅
  · have hd : diagnose input = .noSymptoms := by
      unfold diagnose diagnoseTokens
      simp [h1]
    refine ⟨⟨fun _ => h1, fun _ => hd⟩, ?_, ?_, rfl, rfl⟩
    · rw [hd]
      constructor
      · intro hc; cases hc
      · rintro ⟨hne, -⟩; exact absurd h1 hne
    · rw [hd]; intro hc; cases hc
  · by_cases h2 : scoresOf (tokensOf input) = []
    · have hd : diagnose input = .noMatch := by
        unfold diagnose diagnoseTokens
        simp [h1, h2]
      refine ⟨?_, ?_, ?_, rfl, rfl⟩
      · rw [hd]
        constructor
        · intro hc; cases hc
        · intro hc; exact absurd hc h1
      · rw [hd]
        exact ⟨fun _ => ⟨h1, (scoresOf_eq_nil_iff _).mp h2⟩, fun _ => rfl⟩
      · rw [hd]; intro hc; cases hc
    · have hd : diagnose input = .results (topOf (tokensOf input)) := by
        unfold diagnose diagnoseTokens
        simp [h1, h2]
      refine ⟨?_, ?_, ?_, rfl, rfl⟩
      · rw [hd]
        constructor
        · intro hc; cases hc
        · intro hc; exact absurd hc h1
      · rw [hd]
        constructor
        · intro hc; cases hc
        · rintro ⟨-, hall⟩
          exact absurd ((scoresOf_eq_nil_iff _).mpr hall) h2
      · rw [hd]
        intro hc
        injection hc with hc'
        exact topOf_ne_nil _ h2 hc'

/-- C8: normalization is idempotent: a string that is already a normalized
SymptomToken (the image of some raw string under the normalization of
line 81) is returned unchanged by a second normalization. -/
theorem c8_normalization_idempotent (t s : Str) (h : s = normalizeToken t) :
    normalizeToken s = s := by
  subst h
  exact normalizeToken_idem t

theorem c8_witness :
    normalizeToken (normalizeToken (codes "  Blurred  Vision ")) =
      normalizeToken (codes "  Blurred  Vision ") :=
  c8_normalization_idempotent (codes "  Blurred  Vision ")
    (normalizeToken (codes "  Blurred  Vision ")) rfl

/-- C10: the outcome of `diagnose` depends only on the set of normalized
tokens of the input: inputs with equal token sets (permutations,
duplications, respellings) yield identical outcomes. -/
theorem c10_token_set_extensionality (xs ys : List Str) (h : tokensOf xs = tokensOf ys) :
    diagnose xs = diagnose ys := by
  unfold diagnose
  rw [h]

theorem c10_witness :
    diagnose [codes "cough", codes " FEVER ", codes "fever"] =
      diagnose [codes "fever", codes "cough"] :=
  c10_token_set_extensionality [codes "cough", codes " FEVER ", codes "fever"]
    [codes "fever", codes "cough"] (by decide)

/-- C1: counterexample. On input `["fever", "cough"]` the returned sequence
is pneumonia, flu, covid-19 (all matchCount 2), which violates the claimed
declaration-order tie-break: flu is declared before pneumonia in the
knowledge base yet appears after it. -/
theorem c1_ordering_counterexample :
    diagnose [codes "fever", codes "cough"] =
      .results [(2, codes "pneumonia"), (2, codes "flu"), (2, codes "covid-19")] ∧
    ¬ ([(2, codes "pneumonia"), (2, codes "flu"), (2, codes "covid-19")] :
        List (Nat × Str)).Pairwise
        (fun a b => b.1 ≤ a.1 ∧ (a.1 = b.1 → declIndex a.2 ≤ declIndex b.2)) := by
  decide

/-- C1 (amended): for every input that yields results, the returned sequence
is sorted by matchCount descending, and among diseases with equal matchCount
the order is descending lexical order on the disease name (the artifact of
`sorted(scores, reverse=True)` over `(score, name)` tuples), not knowledge
base declaration order. -/
theorem c1_ordering_amended (input : List Str) (l : List (Nat × Str))
    (h : diagnose input = .results l) :
    l.Pairwise (fun a b => b.1 < a.1 ∨ (b.1 = a.1 ∧ pyStrLtB b.2 a.2 = true)) := by
  obtain ⟨hl, -, -⟩ := results_eq input l h
  subst hl
  have hsorted : (topOf (tokensOf input)).Pairwise tupGe :=
    List.Pairwise.sublist (List.take_sublist 3 _)
      (List.sorted_insertionSort tupGe (scoresOf (tokensOf input)))
  have hnd : (topOf (tokensOf input)).Pairwise (· ≠ ·) := nodup_topOf _
  refine List.Pairwise.imp₂ ?_ hsorted hnd
  intro a b hge hne
  rcases pyTupLtB_false_cases a b (Bool.eq_false_iff.mpr hge) with hlt | heq
  · simpa [pyTupLtB, Bool.or_eq_true, Bool.and_eq_true, decide_eq_true_eq] using hlt
  · exact absurd heq hne

theorem c1_ordering_amended_witness :
    ([(2, codes "pneumonia"), (2, codes "flu"), (2, codes "covid-19")] :
      List (Nat × Str)).Pairwise
      (fun a b => b.1 < a.1 ∨ (b.1 = a.1 ∧ pyStrLtB b.2 a.2 = true)) :=
  c1_ordering_amended [codes "fever", codes "cough"]
    [(2, codes "pneumonia"), (2, codes "flu"), (2, codes "covid-19")] (by decide)

/-- C5: every returned matchCount is exactly the cardinality of the
intersection of the normalized input token set with that disease's symptom
set in the knowledge base. -/
theorem c5_score_correct (input : List Str) (l : List (Nat × Str))
    (h : diagnose input = .results l) :
    ∀ p ∈ l, p.1 = (tokensOf input ∩ kbSymptoms p.2).card := by
  obtain ⟨hl, -, -⟩ := results_eq input l h
  subst hl
  intro p hp
  obtain ⟨e, heKB, -, rfl⟩ := mem_scoresOf _ p (mem_topOf _ p hp)
  show matchCount (tokensOf input) e.2 = (tokensOf input ∩ kbSymptoms e.1).card
  rw [kbSymptoms_of_mem e heKB]
  rfl

theorem c5_score_correct_witness :
    (2 : Nat) = (tokensOf [codes "fever", codes "cough"] ∩ kbSymptoms (codes "pneumonia")).card :=
  c5_score_correct [codes "fever", codes "cough"]
    [(2, codes "pneumonia"), (2, codes "flu"), (2, codes "covid-19")] (by decide)
    (2, codes "pneumonia") (by decide)

/-- C6: `diagnose` returns at most 3 results, and every returned result has
matchCount at least 1. -/
theorem c6_result_bound (input : List Str) (l : List (Nat × Str))
    (h : diagnose input = .results l) :
    l.length ≤ 3 ∧ ∀ p ∈ l, 1 ≤ p.1 := by
  obtain ⟨hl, -, -⟩ := results_eq input l h
  subst hl
  constructor
  · exact List.length_take_le 3 _
  · intro p hp
    obtain ⟨e, -, hpos, rfl⟩ := mem_scoresOf _ p (mem_topOf _ p hp)
    exact hpos

theorem c6_result_bound_witness :
    ([(2, codes "pneumonia"), (2, codes "flu"), (2, codes "covid-19")] :
      List (Nat × Str)).length ≤ 3 ∧ (1 : Nat) ≤ 2 :=
  ⟨(c6_result_bound [codes "fever", codes "cough"]
      [(2, codes "pneumonia"), (2, codes "flu"), (2, codes "covid-19")] (by decide)).1,
   (c6_result_bound [codes "fever", codes "cough"]
      [(2, codes "pneumonia"), (2, codes "flu"), (2, codes "covid-19")] (by decide)).2
     (2, codes "pneumonia") (by decide)⟩

/-- C9: `ALL_SYMPTOMS` is strictly ascending in the lexical order on code
points (hence each symptom appears exactly once) and contains exactly the
distinct symptom tokens occurring across all knowledge base entries. -/
theorem c9_all_symptoms :
    ALL_SYMPTOMS.Pairwise (fun a b => pyStrLtB a b = true) ∧
    ALL_SYMPTOMS.Nodup ∧
    ALL_SYMPTOMS.toFinset = ((DISEASE_RULES.map Prod.snd).flatten).toFinset := by
  decide

/-- Helper for the spec-worded normalization: replace each maximal run of
whitespace by a single connector; the flag records whether the previous
character was whitespace. -/
def collapseAux : Bool → Str → Str
  | _, [] => []
  | prevWS, c :: rest =>
    if pyIsSpace c then
      (if prevWS then [] else [95]) ++ collapseAux true rest
    else c :: collapseAux false rest

/-- The normalization as the specification words it (SymptomToken, section 3):
lowercased, trimmed, and with every run of internal whitespace replaced by a
single connector character. Stated only to compare with the code's
`normalizeToken`. -/
def specNormalizeToken (l : Str) : Str := collapseAux false (pyLower (pyStrip l))

/-- C4: counterexample. On the raw input `"red  eyes"` (two internal spaces)
the code produces `red__eyes` (each space becomes its own underscore), not
the single connector the claim describes, so the claimed normalization
disagrees with the code's. -/
theorem c4_normalization_counterexample :
    normalizeToken (codes "red  eyes") = codes "red__eyes" ∧
    specNormalizeToken (codes "red  eyes") = codes "red_eyes" ∧
    normalizeToken (codes "red  eyes") ≠ specNormalizeToken (codes "red  eyes") := by
  decide

/-- C4 (amended): normalization lowercases, trims leading and trailing
whitespace, and replaces each internal space character by exactly one
underscore (a run of k spaces becomes k underscores, and length is
preserved); strings empty after trimming are discarded and duplicates
collapse into a set. Stated as: the normalized token has no space, is fixed
by a further strip and lowercasing, keeps the stripped string's length, its
underscore count is the stripped string's underscore count plus its space
count, and membership in the token set is normalization of a non-blank
input entry. -/
theorem c4_normalization_amended (s : Str) (input : List Str) :
    (∀ c ∈ normalizeToken s, c ≠ 32) ∧
    pyStrip (normalizeToken s) = normalizeToken s ∧
    pyLower (normalizeToken s) = normalizeToken s ∧
    (normalizeToken s).length = (pyStrip s).length ∧
    (normalizeToken s).count 95 = (pyStrip s).count 95 + (pyStrip s).count 32 ∧
    (∀ t, t ∈ tokensOf input ↔ ∃ r ∈ input, pyStrip r ≠ [] ∧ t = normalizeToken r) := by
  refine ⟨?_, pyStrip_normalizeToken s, pyLower_normalizeToken s, ?_, ?_, ?_⟩
  · intro c hc
    rw [normalizeToken_eq_map] at hc
    obtain ⟨d, -, rfl⟩ := List.mem_map.mp hc
    exact normChar_ne_space d
  · rw [normalizeToken_eq_map, List.length_map]
  · rw [normalizeToken_eq_map, count_map_normChar]
  · intro t
    unfold tokensOf
    rw [List.mem_toFinset, List.mem_map]
    constructor
    · rintro ⟨r, hr, rfl⟩
      obtain ⟨hmem, hpred⟩ := List.mem_filter.mp hr
      refine ⟨r, hmem, ?_, rfl⟩
      intro hc
      rw [hc] at hpred
      simp at hpred
    · rintro ⟨r, hmem, hne, rfl⟩
      refine ⟨r, List.mem_filter.mpr ⟨hmem, ?_⟩, rfl⟩
      simpa [List.isEmpty_iff] using hne
